import Mathlib

/-!
Formal verification of the language-understanding and dialogue-state core of
the hotel booking chatbot (files `nlp_utils.py`, `app.py`, `models.py`).

The Python code is shallowly embedded: pure string/regex processing is
translated into executable Lean functions over `List Char` / `String`;
the external NLP collaborators (spaCy named-entity recognition, the
`dateparser` library's `search_dates` / `parse` functions) are modelled as
an explicit oracle record, since their behaviour is outside the repository;
`datetime.now()` / `datetime.utcnow()` are passed as explicit parameters.
Machine dates are modelled as calendar records with exact integer
day/second arithmetic (Python `datetime` arithmetic on these ranges is
exact).  All text processed by the program in the claims is ASCII, and the
embedding of `str.lower` / `\w` / `\s` uses the ASCII semantics.
-/

/- ### Character classes used by the Python regexes (ASCII semantics) -/

/-- Python regex `\w` (ASCII): letters, digits and underscore. -/
def isWordChar (c : Char) : Bool :=
  c.isAlphanum || c == '_'

/-- Python regex `\s` / `str.strip` whitespace (ASCII): space, tab, LF, CR, VT, FF. -/
def isPySpace (c : Char) : Bool :=
  c == ' ' || c == '\t' || c == '\n' || c == '\r' ||
  c == (Char.ofNat 11) || c == (Char.ofNat 12)

/-- An apostrophe character, built numerically (ASCII 39). -/
def apos : Char := Char.ofNat 39

/-- The apostrophe as a one-character string. -/
def aposS : String := String.mk [apos]

/-- ASCII lowercase of a character list, as done by Python `str.lower` on ASCII text. -/
def lowerL (cs : List Char) : List Char := cs.map Char.toLower

/-- Python `str.strip()` on a character list: drop leading and trailing whitespace. -/
def stripL (cs : List Char) : List Char :=
  ((cs.dropWhile isPySpace).reverse.dropWhile isPySpace).reverse

/-- Python `str.strip()` on strings. -/
def stripS (s : String) : String := String.mk (stripL s.data)

/- ### Literal matching primitives -/

/-- Predicate `prefAt pat cs`: the pattern `pat` matches literally at the head of `cs`
(the way a regex literal matches at one position). -/
def prefAt : List Char → List Char → Bool
  | [], _ => true
  | _ :: _, [] => false
  | p :: ps, c :: cs => p == c && prefAt ps cs

/-- Plain substring search, as Python `re.search` of a literal pattern or
the Python `in` operator on strings: scan every suffix for a literal match. -/
def containsSubL (pat : List Char) : List Char → Bool
  | [] => prefAt pat []
  | c :: cs => prefAt pat (c :: cs) || containsSubL pat cs

/-- After a match of length `n` at the head of `cs`, the `\b` boundary holds
iff the first unconsumed character (if any) is not a word character. -/
def boundaryAfter (n : Nat) (cs : List Char) : Bool :=
  match cs.drop n with
  | [] => true
  | d :: _ => !isWordChar d

/-- Worker for `\bpat\b` search: `prev` records whether the previous
character was a word character (false at the start of the string). -/
def wordSearchAux (pat : List Char) (prev : Bool) : List Char → Bool
  | [] => false
  | c :: cs =>
    (!prev && prefAt pat (c :: cs) && boundaryAfter pat.length (c :: cs)) ||
    wordSearchAux pat (isWordChar c) cs

/-- Python `re.search(r"\bpat\b", text)` for a literal `pat` that starts and
ends with word characters (true for every such pattern in the source). -/
def wordSearch (pat : List Char) (cs : List Char) : Bool :=
  wordSearchAux pat false cs

/-- Python `re.search(r"^pat\b", text)`: anchored at the string start. -/
def anchoredWord (pat : List Char) (cs : List Char) : Bool :=
  prefAt pat cs && boundaryAfter pat.length cs

/-- Maximal run of alphabetic characters starting each token, i.e. Python
`re.findall(r"[A-Za-z]+", s)`.  `acc` holds the current token reversed. -/
def alphaTokensAux : List Char → List Char → List (List Char)
  | [], acc => if acc.isEmpty then [] else [acc.reverse]
  | c :: cs, acc =>
    if c.isAlpha then alphaTokensAux cs (c :: acc)
    else if acc.isEmpty then alphaTokensAux cs []
    else acc.reverse :: alphaTokensAux cs []

/-- Python `re.findall(r"[A-Za-z]+", s)`: the maximal alphabetic runs of `s`. -/
def alphaTokens (cs : List Char) : List (List Char) := alphaTokensAux cs []

/-- A generic left-to-right scan over the suffixes of a string: the embedding
of `re.search`'s position loop.  Returns the first position's result. -/
def scanList (f : List Char → Option α) : List Char → Option α
  | [] => f []
  | c :: cs =>
    match f (c :: cs) with
    | some a => some a
    | none => scanList f cs

/-- First pattern of `pats` that matches at the head of `cs` — the embedding
of an anchored regex alternation `(p1|p2|...)`, which tries branches in order. -/
def firstPref (pats : List (List Char)) (cs : List Char) : Option (List Char) :=
  pats.find? (fun w => prefAt w cs)

/- ### Calendar datetimes (embedding of Python `datetime`) -/

/-- A Python `datetime` value: a calendar timestamp.  The fields mirror the
constructor arguments used in `nlp_utils.py`. -/
structure DateTime where
  year : Int
  month : Nat
  day : Nat
  hour : Nat
  minute : Nat
  second : Nat
deriving DecidableEq, Repr

/-- Gregorian leap-year test (as `datetime` uses). -/
def isLeap (y : Int) : Bool :=
  y % 4 == 0 && (y % 100 != 0 || y % 400 == 0)

/-- Number of days in a month of a given year. -/
def daysInMonth (y : Int) (m : Nat) : Nat :=
  if m == 2 then (if isLeap y then 29 else 28)
  else if m == 4 || m == 6 || m == 9 || m == 11 then 30
  else 31

/-- Whether `datetime(year=y, month=m, day=d, ...)` succeeds
(the `ValueError` branch of `_closest_year_for_month_day` fires otherwise). -/
def validYMD (y : Int) (m d : Nat) : Bool :=
  1 ≤ m && m ≤ 12 && 1 ≤ d && d ≤ daysInMonth y m

/-- Days since 1970-01-01 of a civil date (Hinnant's `days_from_civil`,
the standard exact Gregorian day count, matching Python date arithmetic). -/
def daysFromCivil (y : Int) (m d : Nat) : Int :=
  let yAdj : Int := if m ≤ 2 then y - 1 else y
  let era : Int := Int.ediv yAdj 400
  let yoe : Int := yAdj - era * 400
  let mp : Int := if m ≤ 2 then (m : Int) + 9 else (m : Int) - 3
  let doy : Int := Int.ediv (153 * mp + 2) 5 + (d : Int) - 1
  let doe : Int := yoe * 365 + Int.ediv yoe 4 - Int.ediv yoe 100 + doy
  era * 146097 + doe - 719468

/-- Inverse of `daysFromCivil` (Hinnant's `civil_from_days`). -/
def civilFromDays (z0 : Int) : Int × Nat × Nat :=
  let z : Int := z0 + 719468
  let era : Int := Int.ediv z 146097
  let doe : Int := z - era * 146097
  let yoe : Int :=
    Int.ediv (doe - Int.ediv doe 1460 + Int.ediv doe 36524 - Int.ediv doe 146096) 365
  let y : Int := yoe + era * 400
  let doy : Int := doe - (365 * yoe + Int.ediv yoe 4 - Int.ediv yoe 100)
  let mp : Int := Int.ediv (5 * doy + 2) 153
  let d : Int := doy - Int.ediv (153 * mp + 2) 5 + 1
  let m : Int := if mp < 10 then mp + 3 else mp - 9
  (if m ≤ 2 then y + 1 else y, m.toNat, d.toNat)

/-- The day number of a datetime (its `.date()` as a day count). -/
def DateTime.days (dt : DateTime) : Int :=
  daysFromCivil dt.year dt.month dt.day

/-- Seconds since epoch: the timeline position a Python `datetime` compares
and subtracts by (`total_seconds()` of differences is exact here). -/
def DateTime.secs (dt : DateTime) : Int :=
  dt.days * 86400 + (dt.hour : Int) * 3600 + (dt.minute : Int) * 60 + (dt.second : Int)

/-- Python `a < b` on datetimes (chronological order). -/
def dtLt (a b : DateTime) : Bool := a.secs < b.secs

/-- Python `a <= b` on datetimes. -/
def dtLe (a b : DateTime) : Bool := a.secs ≤ b.secs

/-- Python `dt + timedelta(days=n)`: shift the calendar date, keeping the
time of day. -/
def addDays (dt : DateTime) (n : Int) : DateTime :=
  let (y, m, d) := civilFromDays (dt.days + n)
  { dt with year := y, month := m, day := d }

/-- Signed day difference `(b.date() - a.date()).days`. -/
def dayDiff (a b : DateTime) : Int := b.days - a.days

/-- The night count the extractor computes from two dates:
`max(1, (checkout.date() - checkin.date()).days)` (a natural number ≥ 1). -/
def nightsOf (ci co : DateTime) : Nat := (max 1 (dayDiff ci co)).toNat

/-- Key `abs((c - today).total_seconds())` as used by the date normalizer's `min` key. -/
def distSecs (today c : DateTime) : Nat := (c.secs - today.secs).natAbs

/- ### The date normalizer `_closest_year_for_month_day` (nlp_utils.py 50-65) -/

/-- Matcher for one position of `re.search(r"\b(20\d{2})\b", t)`:
a four-digit year `20xx` delimited by word boundaries. -/
def yearAt : List Char → Bool
  | '2' :: '0' :: a :: b :: rest =>
    a.isDigit && b.isDigit && (match rest with | [] => true | r :: _ => !isWordChar r)
  | _ => false

/-- Worker for the explicit-year search, tracking the previous character's
word-character status for the leading `\b`. -/
def hasYearAux (prev : Bool) : List Char → Bool
  | [] => false
  | c :: cs => (!prev && yearAt (c :: cs)) || hasYearAux (isWordChar c) cs

/-- Test `re.search(r"\b(20\d{2})\b", matched_text)`: the matched text carries an
explicit four-digit year beginning with "20". -/
def hasExplicitYear (s : String) : Bool := hasYearAux false s.data

/-- The candidate list of `_closest_year_for_month_day`: the parsed month/day
(and time of day) under the current year minus one, the current year, and the
current year plus one, skipping invalid calendar dates (the `ValueError` branch). -/
def candidatesFor (today dt : DateTime) : List DateTime :=
  [today.year - 1, today.year, today.year + 1].filterMap (fun y =>
    if validYMD y dt.month dt.day then
      some { dt with year := y }
    else none)

/-- Python `min(xs, key=f)` with `x` the first element: keep the current
best, replacing it only on a strictly smaller key (first minimum wins). -/
def pyMinBy (f : DateTime → Nat) (x : DateTime) : List DateTime → DateTime
  | [] => x
  | y :: ys => pyMinBy f (if f y < f x then y else x) ys

/-- Embedding of `_closest_year_for_month_day(dt, matched_text)` with `datetime.now()`
passed explicitly as `today`. -/
def _closest_year_for_month_day (today : DateTime) (dt : DateTime) (matched : String) :
    DateTime :=
  if hasExplicitYear matched then dt
  else
    match candidatesFor today dt with
    | [] => dt
    | c :: cs => pyMinBy (distSecs today) c cs

/- ### Intent classifier (nlp_utils.py 10-47) -/

/-- The characters of the phrase pattern `that's fine` (apostrophe built
numerically). -/
def thatsFineP : List Char :=
  ['t', 'h', 'a', 't', apos, 's', ' ', 'f', 'i', 'n', 'e']

/-- Source list `CONFIRM_WORDS`: six word-bounded patterns and three plain-substring
phrase patterns, in source order, as matchers over the lowercased text. -/
def CONFIRM_WORDS : List (List Char → Bool) :=
  [wordSearch "confirm".data, wordSearch "yes".data, wordSearch "yep".data,
   wordSearch "sure".data, wordSearch "ok".data, wordSearch "all set".data,
   containsSubL thatsFineP, containsSubL "that works".data,
   containsSubL "looks good".data]

/-- Source list `CANCEL_WORDS`. -/
def CANCEL_WORDS : List (List Char → Bool) :=
  [wordSearch "cancel".data, wordSearch "forget".data,
   wordSearch "no longer".data, wordSearch "never mind".data]

/-- Source list `BOOK_WORDS`. -/
def BOOK_WORDS : List (List Char → Bool) :=
  [wordSearch "book".data, wordSearch "reserve".data,
   wordSearch "reservation".data, wordSearch "stay".data,
   wordSearch "booking".data]

/-- Source list `GREET_WORDS`: three start-anchored patterns plus
`good (morning|afternoon|evening)`. -/
def GREET_WORDS : List (List Char → Bool) :=
  [anchoredWord "hi".data, anchoredWord "hello".data, anchoredWord "hey".data,
   fun t => containsSubL "good morning".data t ||
            containsSubL "good afternoon".data t ||
            containsSubL "good evening".data t]

/-- Embedding of `_match_any_word(list_patterns, text)`: false on empty text, else try
each pattern on the lowercased text. -/
def _match_any_word (pats : List (List Char → Bool)) (text : String) : Bool :=
  if text.isEmpty then false
  else pats.any (fun p => p (lowerL text.data))

/-- The booking heuristic of `detect_intent`: a digit together with one of
the booking-related substrings, on the lowercased text. -/
def bookHeuristic (t : List Char) : Bool :=
  t.any Char.isDigit &&
    (containsSubL "night".data t || containsSubL "guest".data t ||
     containsSubL "people".data t || containsSubL "from".data t ||
     containsSubL "to".data t)

/-- Embedding of `detect_intent(text)` (nlp_utils.py 32-47). -/
def detect_intent (text : String) : String :=
  if text.isEmpty || (stripS text).isEmpty then "unknown"
  else if _match_any_word CONFIRM_WORDS text then "confirm"
  else if _match_any_word CANCEL_WORDS text then "cancel"
  else if _match_any_word BOOK_WORDS text then "book"
  else if _match_any_word GREET_WORDS text then "greet"
  else if bookHeuristic (lowerL text.data) then "book"
  else "unknown"

/- ### Name-likeness heuristic (nlp_utils.py 68-89) -/

/-- The character class `[0-9/\\\-:]` of the quick-reject test. -/
def isDateLikeChar (c : Char) : Bool :=
  c.isDigit || c == '/' || c == '\\' || c == '-' || c == ':'

/-- The reserved directive vocabulary of `looks_like_name_response`. -/
def nameDirectives : List String :=
  ["from", "to", "next", "for", "night", "nights", "guest", "guests",
   "booking", "book", "checkin", "checkout", "payment", "breakfast"]

/-- Embedding of `looks_like_name_response(text)` (nlp_utils.py 68-89). -/
def looks_like_name_response (text : String) : Bool :=
  if text.isEmpty || (stripS text).isEmpty then false
  else
    let s := (stripS text).data
    if s.any isDateLikeChar then false
    else
      let tokens := alphaTokens s
      if !(1 ≤ tokens.length && tokens.length ≤ 3) then false
      else
        let lowToks := tokens.map (fun tk => String.mk (lowerL tk))
        !(lowToks.any (fun tk => nameDirectives.contains tk))

/- ### Claim-side classifiers (for claim C4)

`classify_claim` renders claim C4 literally: the whole confirm vocabulary —
the three phrases included — is matched with word boundaries.
`classify_amended` renders the amended claim: an ordered table of tagged
matchers (the phrases as plain substring matchers, as in the source),
then the digit heuristic, then `unknown`. -/

/-- All nine confirm vocabulary entries as plain patterns. -/
def confirmVocab : List (List Char) :=
  ["confirm".data, "yes".data, "yep".data, "sure".data, "ok".data,
   "all set".data, thatsFineP, "that works".data, "looks good".data]

/-- Claim C4 taken literally: every confirm entry matched with word
boundaries (case-insensitively), then cancel, book, greet, the digit
heuristic, and `unknown`. -/
def classify_claim (text : String) : String :=
  if (stripS text).isEmpty then "unknown"
  else
    let t := lowerL text.data
    if confirmVocab.any (fun w => wordSearch w t) then "confirm"
    else if ["cancel".data, "forget".data, "no longer".data,
             "never mind".data].any (fun w => wordSearch w t) then "cancel"
    else if ["book".data, "reserve".data, "reservation".data, "stay".data,
             "booking".data].any (fun w => wordSearch w t) then "book"
    else if (["hi".data, "hello".data, "hey".data].any (fun w => anchoredWord w t)
             || containsSubL "good morning".data t
             || containsSubL "good afternoon".data t
             || containsSubL "good evening".data t) then "greet"
    else if bookHeuristic t then "book"
    else "unknown"

/-- First tag of an ordered matcher table whose matcher set fires. -/
def firstTag (table : List (String × List (List Char → Bool))) (t : List Char) :
    Option String :=
  match table with
  | [] => none
  | (tag, ms) :: rest => if ms.any (fun m => m t) then some tag else firstTag rest t

/-- The amended claim C4: ordered tagged matchers with the three confirm
phrases as substring matchers, then the digit heuristic, then `unknown`. -/
def classify_amended (text : String) : String :=
  if (stripS text).isEmpty then "unknown"
  else
    let t := lowerL text.data
    match firstTag [("confirm", CONFIRM_WORDS), ("cancel", CANCEL_WORDS),
                    ("book", BOOK_WORDS), ("greet", GREET_WORDS)] t with
    | some tag => tag
    | none => if bookHeuristic t then "book" else "unknown"

/- ### External NLP collaborators as an oracle (spaCy, dateparser) -/

/-- The external natural-language subsystem used by `extract_entities`:
spaCy PERSON / CARDINAL entity spans, `dateparser.search.search_dates`
(its `None` result is modelled as the empty list — both are falsy in the
source's `if dates:` test) and the two `dateparser.parse` call shapes
(with the future-preference settings, and without settings). -/
structure NlpOracle where
  persons : String → List String
  cardinals : String → List String
  searchDates : String → List (String × DateTime)
  parseDateFuture : String → Option DateTime
  parseDatePlain : String → Option DateTime

/-- Python truthiness of an optional string (`None` and `""` are falsy). -/
def truthyStr : Option String → Bool
  | none => false
  | some s => !s.isEmpty

/-- Python truthiness of an optional integer (`None` and `0` are falsy). -/
def truthyNat : Option Nat → Bool
  | none => false
  | some n => n != 0

/- ### Name extraction (nlp_utils.py 107-114) -/

/-- The characters of `i'm`. -/
def iAmApos : List Char := ['i', apos, 'm']

/-- Phrase alternatives of the name regex, in source order. -/
def namePhrases : List (List Char) :=
  ["i am".data, iAmApos, "my name is".data, "this is".data]

/-- One `[A-Z][a-z]+` unit: an ASCII capital followed by one or more
lowercase letters (greedy).  Returns the consumed length. -/
def capWordLen : List Char → Option Nat
  | [] => none
  | c :: cs =>
    if c.isUpper then
      let r := cs.takeWhile Char.isLower
      if r.isEmpty then none else some (1 + r.length)
    else none

/-- Greedy repetition `(?:\s[A-Z][a-z]+)*`: extra length consumed after the
first capitalized word.  Fuel-driven (each unit consumes at least two
characters, so `fuel = length` never runs out). -/
def moreCapWords : Nat → List Char → Nat
  | 0, _ => 0
  | _ + 1, [] => 0
  | fuel + 1, c :: cs =>
    if isPySpace c then
      match capWordLen cs with
      | some k => 1 + k + moreCapWords fuel (cs.drop k)
      | none => 0
    else 0

/-- The name-phrase regex
`(?:i am|i'm|my name is|this is)\s+([A-Z][a-z]+(?:\s[A-Z][a-z]+)*)`
(case-sensitive, on the raw text); returns the captured group. -/
def nameRegexSearch (cs : List Char) : Option String :=
  scanList (fun s =>
    namePhrases.findSome? (fun ph =>
      if prefAt ph s then
        let r := s.drop ph.length
        if (r.takeWhile isPySpace).isEmpty then none
        else
          let r2 := r.dropWhile isPySpace
          match capWordLen r2 with
          | some k =>
            some (String.mk (r2.take (k + moreCapWords r2.length (r2.drop k))))
          | none => none
      else none)) cs

/-- The NAME step: first spaCy PERSON span (stripped), else the phrase regex
(whose captured group is stripped as in the source). -/
def nameExtract (o : NlpOracle) (text : String) : Option String :=
  match o.persons text with
  | p :: _ => some (stripS p)
  | [] => (nameRegexSearch text.data).map stripS

/- ### Guests extraction (nlp_utils.py 116-131) -/

/-- Numeric value of a digit list (the digits left by `re.sub(r"[^\d]", "", c)`). -/
def natOfDigits (ds : List Char) : Nat :=
  ds.foldl (fun a c => a * 10 + (c.toNat - 48)) 0

/-- Embedding of `int(re.sub(r"[^\d]", "", c))`: delete the non-digits and parse;
`None` models the `ValueError` on an all-non-digit string. -/
def digitsVal (c : String) : Option Nat :=
  let ds := c.data.filter Char.isDigit
  if ds.isEmpty then none else some (natOfDigits ds)

/-- First CARDINAL span with a parseable value (the `for c in cardinals`
loop with its `break` / `continue`). -/
def firstCardinalVal : List String → Option Nat
  | [] => none
  | c :: cs =>
    match digitsVal c with
    | some v => some v
    | none => firstCardinalVal cs

/-- Embedding of `re.search(r"(\d+)\s*(?:guest|guests|person|people)", text, re.I)` on the
lowercased text: maximal digit run, optional whitespace, then one of the
keywords ("guests" is subsumed by the "guest" branch). -/
def guestsRegex (lt : List Char) : Option Nat :=
  scanList (fun s =>
    let ds := s.takeWhile Char.isDigit
    if ds.isEmpty then none
    else
      let r := (s.drop ds.length).dropWhile isPySpace
      if ["guest".data, "guests".data, "person".data, "people".data].any
          (fun w => prefAt w r)
      then some (natOfDigits ds) else none) lt

/-- The GUESTS step: CARDINAL entities first; if that yields a falsy value
(`None` or `0`), try the explicit-phrase regex, keeping the cardinal value
when the regex fails (as the source's `guests` variable does). -/
def guestsExtract (o : NlpOracle) (text : String) : Option Nat :=
  let g1 := firstCardinalVal (o.cardinals text)
  if truthyNat g1 then g1
  else
    match guestsRegex (lowerL text.data) with
    | some v => some v
    | none => g1

/- ### Breakfast extraction and normalization (nlp_utils.py 133-168) -/

/-- The separator class `[:\s-]` of `breakfast[:\s-]*(...)` and
`payment[:\s-]*(...)`. -/
def isSepChar (c : Char) : Bool :=
  c == ':' || isPySpace c || c == '-'

/-- Alternation branches of
`breakfast[:\s-]*(yes|no|included|with|without|continental|American|buffet|full english|full|english|none)`,
in source order, lowercased (the match is case-insensitive and every
downstream use — `br.lower()` comparisons and `br.capitalize()` — is
case-normalizing, so the captured token's original case is immaterial). -/
def bfstBranches : List (List Char) :=
  ["yes".data, "no".data, "included".data, "with".data, "without".data,
   "continental".data, "american".data, "buffet".data, "full english".data,
   "full".data, "english".data, "none".data]

/-- The first breakfast-keyword regex on the lowercased text.  The greedy
`[:\s-]*` is embedded as skipping the maximal separator run: no branch
starts with a separator character, so backtracking to a shorter run can
never succeed. -/
def bfstKeywordSearch (lt : List Char) : Option (List Char) :=
  scanList (fun s =>
    if prefAt "breakfast".data s then
      firstPref bfstBranches ((s.drop 9).dropWhile isSepChar)
    else none) lt

/-- A scan returning only whether some position matches. -/
def boolScan (f : List Char → Bool) (cs : List Char) : Bool :=
  (scanList (fun s => if f s then some () else none) cs).isSome

/-- Matcher for `(?:w1|w2|...)\s+breakfast` at one position (used by the
`include/with breakfast` and `no/without/none breakfast` checks). -/
def phraseThenBreakfast (ws : List (List Char)) (s : List Char) : Bool :=
  ws.any (fun w =>
    prefAt w s &&
      (let r := s.drop w.length
       !(r.takeWhile isPySpace).isEmpty &&
         prefAt "breakfast".data (r.dropWhile isPySpace)))

/-- Embedding of `re.search(r"(?:include|included|with)\s+breakfast", text, re.I)`. -/
def includeWithBfst (lt : List Char) : Bool :=
  boolScan (phraseThenBreakfast ["include".data, "included".data, "with".data]) lt

/-- Embedding of `re.search(r"(?:no|without|none)\s+breakfast", text, re.I)`. -/
def noWithoutBfst (lt : List Char) : Bool :=
  boolScan (phraseThenBreakfast ["no".data, "without".data, "none".data]) lt

/-- Embedding of `re.search(r"full\s+english|fullenglish|full english", text, re.I)`. -/
def fullEnglishSearch (lt : List Char) : Bool :=
  boolScan (fun s =>
    (prefAt "full".data s &&
      (let r := s.drop 4
       !(r.takeWhile isPySpace).isEmpty &&
         prefAt "english".data (r.dropWhile isPySpace))) ||
    prefAt "fullenglish".data s || prefAt "full english".data s) lt

/-- Python `str.capitalize()`: first character uppercased, the rest lowercased. -/
def capitalizeL : List Char → List Char
  | [] => []
  | c :: cs => c.toUpper :: lowerL cs

/-- The breakfast normalization block (`br_norm = br.lower()` and the
`if/elif` chain of nlp_utils.py 154-168). -/
def normalizeBfst (br : String) : String :=
  let n := String.mk (lowerL br.data)
  if n == "yes" || n == "with" || n == "included" || n == "include" then "Included"
  else if n == "no" || n == "none" || n == "without" then "No"
  else if containsSubL "continental".data n.data then "Continental"
  else if containsSubL "buffet".data n.data then "Buffet"
  else if containsSubL "full".data n.data || containsSubL "english".data n.data then
    "Full English"
  else String.mk (capitalizeL br.data)

/-- The BREAKFAST step: only attempted when the standalone word `breakfast`
occurs; the raw token comes from the keyword regex, then the flexible
keyword checks, with `unspecified` as the final fallback; the raw token is
then normalized. -/
def breakfastExtract (text : String) : Option String :=
  let lt := lowerL text.data
  if wordSearch "breakfast".data lt then
    let br : String :=
      match bfstKeywordSearch lt with
      | some g => String.mk g
      | none =>
        if includeWithBfst lt then "included"
        else if noWithoutBfst lt then "no"
        else if containsSubL "continental".data lt then "continental"
        else if containsSubL "buffet".data lt then "buffet"
        else if fullEnglishSearch lt then "full english"
        else "unspecified"
    some (normalizeBfst br)
  else none

/- ### Payment extraction and normalization (nlp_utils.py 170-186) -/

/-- Branches of `\b(visa|mastercard|paypal|cash|card|debit|credit|american express|amex|crypto|bitcoin|btc)\b`,
in source order.  No branch is a prefix of another, so at any one position
at most one branch can match and the per-position alternation needs no
backtracking. -/
def payBranches : List (List Char) :=
  ["visa".data, "mastercard".data, "paypal".data, "cash".data, "card".data,
   "debit".data, "credit".data, "american express".data, "amex".data,
   "crypto".data, "bitcoin".data, "btc".data]

/-- Branches of the scoped retry `payment[:\s-]*(...)` — same set, with
`amex` listed before `american express` as in the source. -/
def payBranchesScoped : List (List Char) :=
  ["visa".data, "mastercard".data, "paypal".data, "cash".data, "card".data,
   "debit".data, "credit".data, "amex".data, "american express".data,
   "crypto".data, "bitcoin".data, "btc".data]

/-- Worker for the word-bounded payment alternation search, tracking the
previous character for the leading `\b`. -/
def payScanAux (prev : Bool) : List Char → Option (List Char)
  | [] => none
  | c :: cs =>
    match
      (if !prev then
        (firstPref payBranches (c :: cs)).bind (fun w =>
          if boundaryAfter w.length (c :: cs) then some w else none)
      else none) with
    | some w => some w
    | none => payScanAux (isWordChar c) cs

/-- The first payment regex (word-bounded), on the lowercased text. -/
def payScanWB (lt : List Char) : Option (List Char) := payScanAux false lt

/-- The scoped retry `payment[:\s-]*(...)` (no word boundaries), on the
lowercased text; greedy `[:\s-]*` embedded as the maximal separator run
(no branch starts with a separator character). -/
def payAfterPayment (lt : List Char) : Option (List Char) :=
  scanList (fun s =>
    if prefAt "payment".data s then
      firstPref payBranchesScoped ((s.drop 7).dropWhile isSepChar)
    else none) lt

/-- The payment normalization mapping (nlp_utils.py 181-185). -/
def payMapping : List (String × String) :=
  [("visa", "Visa"), ("mastercard", "Mastercard"), ("paypal", "PayPal"),
   ("cash", "Cash"), ("card", "Card"), ("debit", "Card"), ("credit", "Card"),
   ("american express", "Amex"), ("amex", "Amex"), ("crypto", "Crypto"),
   ("bitcoin", "Crypto"), ("btc", "Crypto")]

/-- Python `str.title()`: uppercase every letter that follows a non-letter,
lowercase the other letters (case-normalizing, so applying it to the
lowercased match slice equals applying it to the raw slice). -/
def titleAux (prevAlpha : Bool) : List Char → List Char
  | [] => []
  | c :: cs =>
    (if c.isAlpha then (if prevAlpha then c.toLower else c.toUpper) else c) ::
      titleAux c.isAlpha cs

/-- The PAYMENT step: the word-bounded alternation anywhere; if absent and
the word `payment` occurs, the scoped retry; then `mapping.get(pm, pay.title())`. -/
def paymentExtract (text : String) : Option String :=
  let lt := lowerL text.data
  let pay0 := payScanWB lt
  let pay :=
    match pay0 with
    | some p => some p
    | none => if wordSearch "payment".data lt then payAfterPayment lt else none
  pay.map (fun p =>
    let pm := String.mk p
    match payMapping.find? (fun kv => kv.1 == pm) with
    | some kv => kv.2
    | none => String.mk (titleAux false p))

/- ### Date phrases (nlp_utils.py 188-251) -/

/-- Embedding of `re.search(r"\b(i am|i'm|my name|name)\b", text, re.I)`: the guard that
lets a name-shaped message still go through date parsing. -/
def hasNameWord (lt : List Char) : Bool :=
  wordSearch "i am".data lt || wordSearch iAmApos lt ||
  wordSearch "my name".data lt || wordSearch "name".data lt

/-- Embedding of `re.search(r"for\s+(\d+)\s+night", text, re.I)` on the lowercased text.
All three quantifiers are forced to their maximal runs: shortening any of
them would leave a character the next literal cannot match. -/
def forNightsSearch (lt : List Char) : Option Nat :=
  scanList (fun s =>
    if prefAt "for".data s then
      let r := s.drop 3
      if (r.takeWhile isPySpace).isEmpty then none
      else
        let r2 := r.dropWhile isPySpace
        let ds := r2.takeWhile Char.isDigit
        if ds.isEmpty then none
        else
          let r3 := r2.drop ds.length
          if (r3.takeWhile isPySpace).isEmpty then none
          else if prefAt "night".data (r3.dropWhile isPySpace) then
            some (natOfDigits ds)
          else none
    else none) lt

/-- The capture class `[A-Za-z0-9 ,\/\-]` of the trailing-date regex. -/
def isTrailClass (c : Char) : Bool :=
  c.isAlpha || c.isDigit || c == ' ' || c == ',' || c == '/' || c == '-'

/-- Embedding of `re.search(r"(?:to|until|through|-)\s*([A-Za-z0-9 ,\/\-]+)", text)`
(case-sensitive, raw text).  After the keyword, the greedy `\s*` skips the
maximal whitespace run; if no capture-class character follows, the regex
backtracks one step into the whitespace, which succeeds exactly when that
run ends in a space (a space belongs to the capture class, tab/newline do
not), capturing that single space.  The four keywords are pairwise
prefix-incompatible, so per-position alternation needs no backtracking. -/
def trailingSearch (cs : List Char) : Option (List Char) :=
  scanList (fun s =>
    ["to".data, "until".data, "through".data, "-".data].findSome? (fun kw =>
      if prefAt kw s then
        let r := s.drop kw.length
        let ws := r.takeWhile isPySpace
        let body := (r.dropWhile isPySpace).takeWhile isTrailClass
        if !body.isEmpty then some body
        else if ws.getLast? == some ' ' then some [' ']
        else none
      else none)) cs

/- ### The two-sided range fallback regex (nlp_utils.py 234-238) -/

/-- A backtracking matcher: all remainders after a match at the head, in
the regex engine's preference order. -/
abbrev PM := List Char → List (List Char)

/-- Literal pattern. -/
def pmLit (w : List Char) : PM := fun cs =>
  if prefAt w cs then [cs.drop w.length] else []

/-- Greedy bounded repetition `cls{lo,hi}` of a character class: longest
first, down to `lo`. -/
def pmCls (p : Char → Bool) (lo hi : Nat) : PM := fun cs =>
  let run := min hi (cs.takeWhile p).length
  if run < lo then []
  else (List.range (run - lo + 1)).map (fun i => cs.drop (run - i))

/-- Greedy unbounded repetition `cls*`. -/
def pmClsStar (p : Char → Bool) : PM := fun cs =>
  let run := (cs.takeWhile p).length
  (List.range (run + 1)).map (fun i => cs.drop (run - i))

/-- Sequencing, in backtracking preference order. -/
def pmSeq (a b : PM) : PM := fun cs => (a cs).flatMap b

/-- Greedy option `(...)?`. -/
def pmOpt (a : PM) : PM := fun cs => a cs ++ [cs]

/-- Ordered alternation. -/
def pmAlt (a b : PM) : PM := fun cs => a cs ++ b cs

/-- The class `[\/\-]` of the numeric date form. -/
def isDashSlash (c : Char) : Bool := c == '/' || c == '-'

/-- The dash class `[-–]` separating the two sides. -/
def isRangeDash (c : Char) : Bool := c == '-' || c == '–'

/-- One side of the range pattern:
`[A-Za-z]{3,9}\s*\d{1,2}(?:,?\s*\d{4})?` or
`\d{1,2}[\/\-]\d{1,2}(?:[\/\-]\d{2,4})?`. -/
def rangeSide : PM :=
  pmAlt
    (pmSeq (pmCls Char.isAlpha 3 9)
      (pmSeq (pmClsStar isPySpace)
        (pmSeq (pmCls Char.isDigit 1 2)
          (pmOpt (pmSeq (pmOpt (pmLit [',']))
            (pmSeq (pmClsStar isPySpace) (pmCls Char.isDigit 4 4)))))))
    (pmSeq (pmCls Char.isDigit 1 2)
      (pmSeq (pmCls isDashSlash 1 1)
        (pmSeq (pmCls Char.isDigit 1 2)
          (pmOpt (pmSeq (pmCls isDashSlash 1 1) (pmCls Char.isDigit 2 4))))))

/-- The separator `\s*[-–]\s*`. -/
def rangeSep : PM :=
  pmSeq (pmClsStar isPySpace) (pmSeq (pmCls isRangeDash 1 1) (pmClsStar isPySpace))

/-- The full range pattern at one position, returning the two captured
group slices. -/
def rangeMatchAt (s : List Char) : Option (List Char × List Char) :=
  (rangeSide s).findSome? (fun rem1 =>
    let g1 := s.take (s.length - rem1.length)
    (rangeSep rem1).findSome? (fun rem2 =>
      (rangeSide rem2).findSome? (fun rem3 =>
        some (g1, rem2.take (rem2.length - rem3.length)))))

/-- Embedding of `re.search` of the range pattern (case-sensitive, raw text). -/
def rangeSearch (cs : List Char) : Option (List Char × List Char) :=
  scanList rangeMatchAt cs

/- ### Assembling the extracted date fields -/

/-- The three date keys an extraction can place into its result mapping. -/
structure DateFields where
  checkin : Option DateTime := none
  checkout : Option DateTime := none
  nights : Option Nat := none
deriving DecidableEq, Repr

/-- The normalized found-date list: each `search_dates` hit passed through
`_closest_year_for_month_day` (nlp_utils.py 195-199). -/
def normalizedDates (o : NlpOracle) (now : DateTime) (text : String) :
    List DateTime :=
  (o.searchDates text).map (fun md => _closest_year_for_month_day now md.2 md.1)

/-- The main date block (nlp_utils.py 201-231): two or more dates → ordered
pair plus night count; exactly one date → `for N nights`, else the trailing
`to , until , through , -` phrase (whose ordering is not corrected — the
out-of-order branch merely re-normalizes the same value). -/
def searchPathFields (o : NlpOracle) (now : DateTime) (text : String) :
    DateFields :=
  match normalizedDates o now text with
  | [] => {}
  | [d] =>
    let checkin := d
    match forNightsSearch (lowerL text.data) with
    | some n =>
      { checkin := some checkin, checkout := some (addDays checkin (Int.ofNat n)),
        nights := some n }
    | none =>
      match trailingSearch text.data with
      | some grp =>
        match o.parseDateFuture (String.mk grp) with
        | some sc0 =>
          let sc1 := _closest_year_for_month_day now sc0 (String.mk grp)
          let sc2 :=
            if dtLt sc1 checkin then _closest_year_for_month_day now sc1 (String.mk grp)
            else sc1
          { checkin := some checkin, checkout := some sc2,
            nights := some (nightsOf checkin sc2) }
        | none => { checkin := some checkin }
      | none => { checkin := some checkin }
  | d1 :: d2 :: _ =>
    let p := if dtLt d2 d1 then (d2, d1) else (d1, d2)
    { checkin := some p.1, checkout := some p.2, nights := some (nightsOf p.1 p.2) }

/-- The range-fallback block (nlp_utils.py 239-251): parse both group
slices without settings, normalize each side lacking an explicit year,
swap if out of order, derive nights. -/
def rangeFields (o : NlpOracle) (now : DateTime) (text : String) : DateFields :=
  match rangeSearch text.data with
  | none => {}
  | some gg =>
    let s1 := String.mk gg.1
    let s2 := String.mk gg.2
    match o.parseDatePlain s1, o.parseDatePlain s2 with
    | some d1p, some d2p =>
      let d1 := if !hasExplicitYear s1 then _closest_year_for_month_day now d1p s1 else d1p
      let d2 := if !hasExplicitYear s2 then _closest_year_for_month_day now d2p s2 else d2p
      let p := if dtLt d2 d1 then (d2, d1) else (d1, d2)
      { checkin := some p.1, checkout := some p.2, nights := some (nightsOf p.1 p.2) }
    | _, _ => {}

/- ### The extractor's result mapping and `extract_entities` -/

/-- The mapping returned by `extract_entities`: `none` models an absent key
(the always-assigned `guests` key may also hold a falsy value, which is
indistinguishable from an absent key to every consumer). -/
structure Extracted where
  name : Option String := none
  guests : Option Nat := none
  breakfast : Option String := none
  payment_method : Option String := none
  checkin : Option DateTime := none
  checkout : Option DateTime := none
  nights : Option Nat := none
deriving DecidableEq, Repr

/-- Assign the keys a date block produced (fields the block did not set
keep their previous value, i.e. stay absent). -/
def applyDateFields (e : Extracted) (df : DateFields) : Extracted :=
  { e with
    checkin := if df.checkin.isSome then df.checkin else e.checkin,
    checkout := if df.checkout.isSome then df.checkout else e.checkout,
    nights := if df.nights.isSome then df.nights else e.nights }

/-- Embedding of `extract_entities(text)` (nlp_utils.py 92-253), with the NLP oracle and
`datetime.now()` explicit.  The Python truthiness tests appear as boolean
matches. -/
def extract_entities (o : NlpOracle) (now : DateTime) (text : String) : Extracted :=
  match text.isEmpty with
  | true => {}
  | false =>
    let base : Extracted :=
      { name := nameExtract o text, guests := guestsExtract o text,
        breakfast := breakfastExtract text, payment_method := paymentExtract text }
    match looks_like_name_response text && !hasNameWord (lowerL text.data) with
    | true => base
    | false =>
      let e1 := applyDateFields base (searchPathFields o now text)
      match e1.checkin.isSome with
      | true => e1
      | false => applyDateFields e1 (rangeFields o now text)

/- ### The booking draft record (models.py) -/

/-- The `Booking` row (models.py 7-20).  Optional columns are `Option`;
Python truthiness of each column is given by `truthyStr` / `truthyNat` /
`Option.isSome` as appropriate. -/
structure Booking where
  id : Nat
  session_id : String
  guest_name : Option String := none
  checkin : Option DateTime := none
  checkout : Option DateTime := none
  nights : Option Nat := none
  guests : Option Nat := none
  breakfast : Option String := none
  payment_method : Option String := none
  confirmed : Bool := false
  notes : Option String := none
  created_at : Nat := 0
deriving DecidableEq, Repr

/-- Embedding of `compute_missing(b)` (app.py 61-69): required-field names, in order. -/
def compute_missing (b : Booking) : List String :=
  (if !truthyStr b.guest_name then ["name"] else []) ++
  (if !(b.checkin.isSome && (b.checkout.isSome || truthyNat b.nights)) then
    ["dates"] else []) ++
  (if !truthyNat b.guests then ["number of guests"] else [])

/-- The field-by-field merge of the extracted mapping into the draft
(app.py 86-107): each truthy extracted value overwrites the stored one and
its field name is recorded, in source order. -/
def mergeBooking (b : Booking) (e : Extracted) : Booking × List String :=
  let s1 : Booking × List String :=
    if truthyStr e.name then ({ b with guest_name := e.name }, ["guest_name"])
    else (b, [])
  let s2 : Booking × List String :=
    if truthyNat e.guests then ({ s1.1 with guests := e.guests }, s1.2 ++ ["guests"])
    else s1
  let s3 : Booking × List String :=
    if e.checkin.isSome then ({ s2.1 with checkin := e.checkin }, s2.2 ++ ["checkin"])
    else s2
  let s4 : Booking × List String :=
    if e.checkout.isSome then ({ s3.1 with checkout := e.checkout }, s3.2 ++ ["checkout"])
    else s3
  let s5 : Booking × List String :=
    if truthyNat e.nights then ({ s4.1 with nights := e.nights }, s4.2 ++ ["nights"])
    else s4
  let s6 : Booking × List String :=
    if truthyStr e.breakfast then
      ({ s5.1 with breakfast := e.breakfast }, s5.2 ++ ["breakfast"])
    else s5
  if truthyStr e.payment_method then
    ({ s6.1 with payment_method := e.payment_method }, s6.2 ++ ["payment_method"])
  else s6

/- ### The per-turn dialogue controller `handle_message` (app.py 50-168) -/

/-- The name-guard step (app.py 71-81): when the pre-merge draft is missing
a name and the (stripped, non-empty) utterance looks like a name, assign it
directly and skip the entity extractor; otherwise run the extractor. -/
def turnPre (E : String → Extracted) (b : Booking) (text : String) :
    Booking × Extracted :=
  if (compute_missing b).contains "name" && !text.isEmpty &&
      looks_like_name_response text then
    ({ b with guest_name := some text }, {})
  else (b, E text)

/-- What one turn returns to the transport layer: reply text, the draft
snapshot, and the completeness flag. -/
structure TurnResult where
  booking : Booking
  reply : String
  all_required_present : Bool
deriving DecidableEq, Repr

/-- The cancellation acknowledgment reply (app.py 132). -/
def cancelReply : String :=
  "Okay — I have canceled the current booking draft. If you" ++ aposS ++
  "d like to start again, say " ++ aposS ++ "I want to book" ++ aposS ++ "."

/-- Reply when only optional fields changed on a complete draft (app.py 151). -/
def optionalChangedReply : String :=
  "Would you like to confirm this booking now? Reply " ++ aposS ++ "confirm" ++
  aposS ++ " to finish, or change breakfast/payment if needed."

/-- Reply offering optional additions on a complete draft (app.py 153-154). -/
def fullDetailsReply : String :=
  "I have the full booking details. Would you like to add breakfast or a " ++
  "payment method before confirming? Reply " ++ aposS ++
  "breakfast: Continental, American or English" ++ aposS ++ " or " ++ aposS ++
  "payment: card, cash, crypto etc" ++ aposS ++ ", or reply " ++ aposS ++
  "confirm" ++ aposS ++ " to finish."

/-- Follow-up question for a missing name (app.py 160). -/
def followName : String := "What" ++ aposS ++ "s the name for the reservation?"

/-- Follow-up question for missing dates (app.py 162). -/
def followDates : String :=
  "When would you like to check in and check out? (e.g., " ++ aposS ++
  "June 10 to June 13" ++ aposS ++ " or " ++ aposS ++
  "next Monday for 3 nights" ++ aposS ++ ")"

/-- Follow-up question for a missing guest count (app.py 164). -/
def followGuests : String := "How many guests will stay?"

/-- Generic follow-up (app.py 166). -/
def followElse : String := "Could you provide that?"

/-- The `Got it — I updated: ...` prefix (app.py 140-145), with the
user-friendly field names (`_` replaced by a space). -/
def changedReplyOf (changed : List String) : String :=
  if changed.isEmpty then ""
  else
    "Got it — I updated: " ++
      String.intercalate ", " (changed.map (fun f => f.replace "_" " ")) ++ ". "

/-- The normal conversational flow (app.py 134-168). -/
def normalFlow (bM : Booking) (changed : List String) : TurnResult :=
  let missing := compute_missing bM
  let pre := changedReplyOf changed
  if missing.length == 0 then
    let r :=
      if changed.any (fun f => f == "breakfast" || f == "payment_method") then
        pre ++ optionalChangedReply
      else pre ++ fullDetailsReply
    { booking := bM, reply := stripS r, all_required_present := true }
  else
    let first := missing.headD ""
    let follow :=
      if containsSubL "name".data first.data then followName
      else if containsSubL "dates".data first.data then followDates
      else if containsSubL "number of guests".data first.data then followGuests
      else followElse
    { booking := bM,
      reply := stripS (pre ++ "I still need " ++ String.intercalate ", " missing ++
        ". " ++ follow),
      all_required_present := false }

/-- Embedding of `handle_message` (app.py 50-168) for one resolved pending draft `b`:
strip the message, apply the name guard or the extractor, classify the
intent, merge, then branch on confirm / cancel / normal flow.
`nowIso` stands for `datetime.utcnow().isoformat()`. -/
def handle_message (E : String → Extracted) (nowIso : String) (b : Booking)
    (message : String) : TurnResult :=
  let text := stripS message
  let pr := turnPre E b text
  let intent := detect_intent text
  let m := mergeBooking pr.1 pr.2
  let bM := m.1
  if intent == "confirm" then
    let missing := compute_missing bM
    if !missing.isEmpty then
      { booking := bM,
        reply := "I need a few more details before I can confirm: " ++
          String.intercalate ", " missing ++ ". Could you provide them?",
        all_required_present := false }
    else
      let bC := { bM with
        confirmed := true,
        notes := some ((bM.notes.getD "") ++ ("\nConfirmed at " ++ nowIso)) }
      { booking := bC,
        reply := "Thanks " ++ (bC.guest_name.getD "") ++ "! Your booking is confirmed.",
        all_required_present := true }
  else if intent == "cancel" then
    let bC := { bM with
      notes := some ((bM.notes.getD "") ++ ("\nCancelled by user at " ++ nowIso)) }
    { booking := bC, reply := cancelReply, all_required_present := false }
  else normalFlow bM m.2

/- ### Direct draft access operations (app.py 171-192) -/

/-- Outcome of the direct confirm / fetch endpoints (the 404, 400 and 200
responses). -/
inductive ApiResult where
  | notFound
  | missingRequired (b : Booking)
  | ok (b : Booking)
deriving DecidableEq, Repr

/-- Embedding of `db.query(Booking).filter_by(id=bid).first()` over the stored rows. -/
def findById (db : List Booking) (bid : Nat) : Option Booking :=
  db.find? (fun x => x.id == bid)

/-- Embedding of `confirm_booking(bid)` (app.py 171-183): 404 when absent; 400 when
`guest_name`, `checkin` or `guests` is falsy (draft unchanged); otherwise
set `confirmed = true` and save.  Returns the stored rows after the
operation together with the response. -/
def confirm_booking (db : List Booking) (bid : Nat) : List Booking × ApiResult :=
  match findById db bid with
  | none => (db, ApiResult.notFound)
  | some b =>
    if !truthyStr b.guest_name || !b.checkin.isSome || !truthyNat b.guests then
      (db, ApiResult.missingRequired b)
    else
      let b2 := { b with confirmed := true }
      (db.map (fun x => if x.id == bid then b2 else x), ApiResult.ok b2)

/-- Embedding of `get_booking(bid)` (app.py 186-192): a pure lookup. -/
def get_booking (db : List Booking) (bid : Nat) : ApiResult :=
  match findById db bid with
  | none => ApiResult.notFound
  | some b => ApiResult.ok b

/- ### The data-model invariant of claim C3 -/

/-- The spec's draft invariant: once both dates are set,
`checkout >= checkin` and `nights == max(1, days between them)`. -/
def bookingInvariant (b : Booking) : Bool :=
  match b.checkin, b.checkout with
  | some ci, some co => dtLe ci co && b.nights == some (nightsOf ci co)
  | _, _ => true

/-- The extractions under which a turn preserves the draft invariant: the
date keys are set all together consistently, or none of them effectively. -/
def extractedDatesOk (e : Extracted) : Bool :=
  match e.checkin, e.checkout with
  | some ci, some co => dtLe ci co && e.nights == some (nightsOf ci co)
  | none, none => !truthyNat e.nights
  | _, _ => false

/- ### Derived per-turn views used in statements -/

/-- The post-merge draft of one turn: the draft after the name guard (or
extraction) and the field-by-field merge, before intent branching. -/
def turnMergedBooking (E : String → Extracted) (b : Booking) (text : String) :
    Booking :=
  (mergeBooking (turnPre E b text).1 (turnPre E b text).2).1

/- ### Concrete data used by witnesses and counterexamples -/

/-- Midnight datetime constructor. -/
def mkDT (y : Int) (m d : Nat) : DateTime := ⟨y, m, d, 0, 0, 0⟩

/-- A "current moment" for the concrete scenarios: 2026-06-12 00:00:00. -/
def now26 : DateTime := mkDT 2026 6 12

/-- An NLP oracle that finds nothing (all spans empty, no date parses). -/
def emptyOracle : NlpOracle :=
  { persons := fun _ => [], cardinals := fun _ => [],
    searchDates := fun _ => [], parseDateFuture := fun _ => none,
    parseDatePlain := fun _ => none }

/-- Oracle for the trailing-phrase scenario: `search_dates` finds only
"June 13" in `June 13 until June 10`, and `parse_date` resolves the
trailing phrase "June 10". -/
def oTrail : NlpOracle :=
  { emptyOracle with
    searchDates := fun t =>
      if t == "June 13 until June 10" then [("June 13", mkDT 2026 6 13)] else [],
    parseDateFuture := fun s =>
      if s == "June 10" then some (mkDT 2026 6 10) else none }

/-- Oracle for the `for 0 nights` scenario. -/
def oZeroN : NlpOracle :=
  { emptyOracle with
    searchDates := fun t =>
      if t == "June 10 for 0 nights" then [("June 10", mkDT 2026 6 10)] else [] }

/-- Oracle that finds the single date "June 20". -/
def oSingle : NlpOracle :=
  { emptyOracle with
    searchDates := fun t =>
      if t == "June 20" then [("June 20", mkDT 2026 6 20)] else [] }

/-- Oracle that finds the two dates of "June 10 to June 13". -/
def oTwo : NlpOracle :=
  { emptyOracle with
    searchDates := fun t =>
      if t == "June 10 to June 13" then
        [("June 10", mkDT 2026 6 10), ("June 13", mkDT 2026 6 13)] else [] }

/-- Oracle that parses the two sides of the range "Jan 12 - Jan 15". -/
def oRange : NlpOracle :=
  { emptyOracle with
    parseDatePlain := fun s =>
      if s == "Jan 12" then some (mkDT 2026 1 12)
      else if s == "Jan 15" then some (mkDT 2026 1 15) else none }

/-- A draft holding a consistent June 1 – June 5 stay. -/
def bDates : Booking :=
  { id := 1, session_id := "s", guest_name := some "Ann",
    checkin := some (mkDT 2026 6 1), checkout := some (mkDT 2026 6 5),
    nights := some 4, guests := some 2 }

/-- A freshly created empty draft. -/
def bEmptyB : Booking := { id := 2, session_id := "s" }

/-- A draft missing only the guest name. -/
def bNoName : Booking :=
  { id := 3, session_id := "s", checkin := some (mkDT 2026 6 1),
    checkout := some (mkDT 2026 6 5), nights := some 4, guests := some 2 }

/-- A complete draft (checkout omitted, nights present). -/
def bFull : Booking :=
  { id := 4, session_id := "s", guest_name := some "Dana",
    checkin := some (mkDT 2026 6 1), nights := some 3, guests := some 2 }

/-- The stored rows used by the direct-endpoint witness. -/
def dbW : List Booking := [bDates, bEmptyB, bFull]

/-- An extractor stub returning the empty mapping. -/
def extNone : String → Extracted := fun _ => {}

/-- An extractor stub returning a name, to separate extractor behaviours. -/
def extName : String → Extracted := fun _ => { name := some "Zed" }

/- ### Lemmas about the matching primitives -/

/-- The test `prefAt` decides the list-prefix relation. -/
theorem prefAt_iff (ps cs : List Char) : prefAt ps cs = true ↔ ps <+: cs := by
  induction ps generalizing cs with
  | nil => simp [prefAt, List.nil_prefix]
  | cons p ps ih =>
    cases cs with
    | nil => simp [prefAt, List.prefix_nil]
    | cons c cs' =>
      rw [show prefAt (p :: ps) (c :: cs') = (p == c && prefAt ps cs') from rfl]
      simp [Bool.and_eq_true, beq_iff_eq, ih, List.cons_prefix_cons]

/-- The test `containsSubL` decides the infix (substring) relation. -/
theorem containsSubL_iff (pat cs : List Char) :
    containsSubL pat cs = true ↔ pat <:+: cs := by
  induction cs with
  | nil =>
    rw [show containsSubL pat [] = prefAt pat [] from rfl]
    simp [prefAt_iff, List.prefix_nil, List.infix_nil]
  | cons c cs ih =>
    rw [show containsSubL pat (c :: cs) =
      (prefAt pat (c :: cs) || containsSubL pat cs) from rfl]
    simp [prefAt_iff, ih, List.infix_cons_iff]

/-- A successful scan certifies a suffix at which the matcher fires. -/
theorem scanList_eq_some {α : Type} {f : List Char → Option α} {cs : List Char}
    {a : α} (h : scanList f cs = some a) : ∃ s, s <:+ cs ∧ f s = some a := by
  induction cs with
  | nil => exact ⟨[], List.suffix_refl [], h⟩
  | cons c cs ih =>
    cases hf : f (c :: cs) with
    | some b =>
      simp only [scanList, hf] at h
      exact ⟨c :: cs, List.suffix_refl _, by rw [hf, h]⟩
    | none =>
      simp only [scanList, hf] at h
      obtain ⟨s, hs, hfs⟩ := ih h
      exact ⟨s, hs.trans (List.suffix_cons c cs), hfs⟩

/-- A successful boolean scan certifies a suffix at which the test holds. -/
theorem boolScan_true {f : List Char → Bool} {cs : List Char}
    (h : boolScan f cs = true) : ∃ s, s <:+ cs ∧ f s = true := by
  unfold boolScan at h
  cases hs : scanList (fun s => if f s then some () else none) cs with
  | none => rw [hs] at h; simp at h
  | some u =>
    obtain ⟨s, hsuf, hf⟩ := scanList_eq_some hs
    refine ⟨s, hsuf, ?_⟩
    by_cases hfs : f s = true
    · exact hfs
    · simp [hfs] at hf

/-- A successful `firstPref` yields a branch of the list that is a prefix
of the input. -/
theorem firstPref_some {pats : List (List Char)} {cs w : List Char}
    (h : firstPref pats cs = some w) : w ∈ pats ∧ w <+: cs := by
  unfold firstPref at h
  have h2 := List.find?_some h
  exact ⟨List.mem_of_find?_eq_some h, (prefAt_iff w cs).mp (by simpa using h2)⟩

/- ### Lemmas about the Python-style minimum -/

/-- Function `pyMinBy` returns its initial element or a list element. -/
theorem pyMinBy_mem (f : DateTime → Nat) (x : DateTime) (ys : List DateTime) :
    pyMinBy f x ys = x ∨ pyMinBy f x ys ∈ ys := by
  induction ys generalizing x with
  | nil => exact Or.inl rfl
  | cons y ys ih =>
    rw [pyMinBy]
    rcases ih (if f y < f x then y else x) with h | h
    · rw [h]
      by_cases hc : f y < f x
      · simp [hc]
      · simp [hc]
    · exact Or.inr (List.mem_cons_of_mem _ h)

/-- Function `pyMinBy` minimizes the key over the initial element and the list. -/
theorem pyMinBy_min (f : DateTime → Nat) (x : DateTime) (ys : List DateTime) :
    f (pyMinBy f x ys) ≤ f x ∧ ∀ y ∈ ys, f (pyMinBy f x ys) ≤ f y := by
  induction ys generalizing x with
  | nil => exact ⟨Nat.le_refl _, by simp⟩
  | cons y ys ih =>
    rw [pyMinBy]
    obtain ⟨h1, h2⟩ := ih (if f y < f x then y else x)
    constructor
    · refine h1.trans ?_
      by_cases hc : f y < f x
      · simpa [hc] using Nat.le_of_lt hc
      · simp [hc]
    · intro z hz
      rcases List.mem_cons.mp hz with rfl | hz'
      · refine h1.trans ?_
        by_cases hc : f z < f x
        · simp [hc]
        · simpa [hc] using Nat.le_of_not_lt hc
      · exact h2 z hz'

/- ### Structural lemmas about the per-turn pipeline -/

/-- The field-by-field merge never touches the notes column. -/
theorem mergeBooking_notes (b : Booking) (e : Extracted) :
    (mergeBooking b e).1.notes = b.notes := by
  unfold mergeBooking
  repeat' split
  all_goals rfl

/-- The field-by-field merge never touches the confirmed flag. -/
theorem mergeBooking_confirmed (b : Booking) (e : Extracted) :
    (mergeBooking b e).1.confirmed = b.confirmed := by
  unfold mergeBooking
  repeat' split
  all_goals rfl

/-- The field-by-field merge never touches the row identity. -/
theorem mergeBooking_id (b : Booking) (e : Extracted) :
    (mergeBooking b e).1.id = b.id := by
  unfold mergeBooking
  repeat' split
  all_goals rfl

/-- The name guard never touches notes, confirmed or id. -/
theorem turnPre_preserved (E : String → Extracted) (b : Booking) (text : String) :
    (turnPre E b text).1.notes = b.notes ∧
    (turnPre E b text).1.confirmed = b.confirmed ∧
    (turnPre E b text).1.id = b.id := by
  unfold turnPre
  split
  · exact ⟨rfl, rfl, rfl⟩
  · exact ⟨rfl, rfl, rfl⟩

/-- The post-merge draft keeps the pre-turn notes, confirmed flag and id. -/
theorem turnMerged_preserved (E : String → Extracted) (b : Booking) (text : String) :
    (turnMergedBooking E b text).notes = b.notes ∧
    (turnMergedBooking E b text).confirmed = b.confirmed ∧
    (turnMergedBooking E b text).id = b.id := by
  unfold turnMergedBooking
  obtain ⟨h1, h2, h3⟩ := turnPre_preserved E b text
  refine ⟨?_, ?_, ?_⟩
  · rw [mergeBooking_notes, h1]
  · rw [mergeBooking_confirmed, h2]
  · rw [mergeBooking_id, h3]

/- ### Field projections of the extractor result -/

/-- Applying date fields never touches the breakfast key. -/
theorem applyDateFields_breakfast (e : Extracted) (df : DateFields) :
    (applyDateFields e df).breakfast = e.breakfast := rfl

/-- Applying date fields never touches the payment key. -/
theorem applyDateFields_payment (e : Extracted) (df : DateFields) :
    (applyDateFields e df).payment_method = e.payment_method := rfl

/-- The breakfast key of the extraction is exactly `breakfastExtract`,
whatever the NLP oracle finds. -/
theorem extract_breakfast_proj (o : NlpOracle) (now : DateTime) (text : String) :
    (extract_entities o now text).breakfast = breakfastExtract text := by
  unfold extract_entities
  cases hemp : text.isEmpty with
  | true =>
    have ht : text = "" := (String.isEmpty_iff text).mp hemp
    subst ht
    rfl
  | false =>
    cases hguard : looks_like_name_response text && !hasNameWord (lowerL text.data) with
    | true => rfl
    | false =>
      dsimp only
      split
      · rfl
      · rfl

/-- The payment key of the extraction is exactly `paymentExtract`,
whatever the NLP oracle finds. -/
theorem extract_payment_proj (o : NlpOracle) (now : DateTime) (text : String) :
    (extract_entities o now text).payment_method = paymentExtract text := by
  unfold extract_entities
  cases hemp : text.isEmpty with
  | true =>
    have ht : text = "" := (String.isEmpty_iff text).mp hemp
    subst ht
    rfl
  | false =>
    cases hguard : looks_like_name_response text && !hasNameWord (lowerL text.data) with
    | true => rfl
    | false =>
      dsimp only
      split
      · rfl
      · rfl

/- ### Lemmas about the extracted date fields -/

/-- Shape analysis of the main date block: it produces nothing, a lone
checkin, the `for N nights` triple, or a full triple whose nights follow
the `max(1, day difference)` rule — ordered whenever two search dates fed it. -/
theorem searchPathFields_spec (o : NlpOracle) (now : DateTime) (text : String) :
    (normalizedDates o now text = [] ∧ searchPathFields o now text = {}) ∨
    (∃ ci, normalizedDates o now text = [ci] ∧
      searchPathFields o now text = { checkin := some ci }) ∨
    (∃ ci n, normalizedDates o now text = [ci] ∧
      searchPathFields o now text =
      { checkin := some ci, checkout := some (addDays ci (Int.ofNat n)),
        nights := some n }) ∨
    (∃ ci co, searchPathFields o now text =
      { checkin := some ci, checkout := some co, nights := some (nightsOf ci co) } ∧
      (2 ≤ (normalizedDates o now text).length → dtLe ci co = true)) := by
  unfold searchPathFields
  split
  · next heq => exact Or.inl ⟨heq, rfl⟩
  · next d heq =>
    split
    · next n hfn => exact Or.inr (Or.inr (Or.inl ⟨d, n, heq, rfl⟩))
    · next hfn =>
      split
      · next grp htr =>
        split
        · next sc0 hpd =>
          refine Or.inr (Or.inr (Or.inr ⟨d, _, rfl, ?_⟩))
          intro hl
          rw [heq] at hl
          simp at hl
        · next hpd => exact Or.inr (Or.inl ⟨d, heq, rfl⟩)
      · next htr => exact Or.inr (Or.inl ⟨d, heq, rfl⟩)
  · next d1 d2 tl heq =>
    refine Or.inr (Or.inr (Or.inr ⟨_, _, rfl, ?_⟩))
    intro _
    by_cases hc : dtLt d2 d1 = true
    · simp only [hc, if_true]
      simp only [dtLt, decide_eq_true_eq] at hc
      simp [dtLe, Int.le_of_lt hc]
    · simp only [Bool.not_eq_true] at hc
      simp only [hc, if_false]
      simp only [dtLt, decide_eq_false_iff_not] at hc
      simp [dtLe, Int.not_lt.mp hc]

/-- Shape analysis of the range fallback: nothing, or an ordered full
triple with the `max(1, day difference)` night count. -/
theorem rangeFields_spec (o : NlpOracle) (now : DateTime) (text : String) :
    rangeFields o now text = {} ∨
    (∃ ci co, rangeFields o now text =
      { checkin := some ci, checkout := some co, nights := some (nightsOf ci co) } ∧
      dtLe ci co = true) := by
  unfold rangeFields
  split
  · exact Or.inl rfl
  · next gg heq =>
    dsimp only
    split
    · next d1p d2p hp1 hp2 =>
      refine Or.inr ⟨_, _, rfl, ?_⟩
      by_cases hc : dtLt (if (!hasExplicitYear { data := gg.2 }) = true then
          _closest_year_for_month_day now d2p { data := gg.2 } else d2p)
          (if (!hasExplicitYear { data := gg.1 }) = true then
          _closest_year_for_month_day now d1p { data := gg.1 } else d1p) = true
      · simp only [hc, if_true]
        simp only [dtLt, decide_eq_true_eq] at hc
        simp only [dtLe, decide_eq_true_eq]
        exact Int.le_of_lt hc
      · simp only [Bool.not_eq_true] at hc
        simp only [hc, if_false]
        simp only [dtLt, decide_eq_false_iff_not] at hc
        simp only [dtLe, decide_eq_true_eq]
        exact Int.not_lt.mp hc
    · next hnp => exact Or.inl rfl

/-- An empty search result leaves the main date block empty. -/
theorem searchPathFields_nil (o : NlpOracle) (now : DateTime) (text : String)
    (h : normalizedDates o now text = []) : searchPathFields o now text = {} := by
  simp only [searchPathFields, h]

/-- The date fields of `applyDateFields` over a mapping with no date keys
are exactly the block's fields. -/
theorem applyDateFields_none (b : Extracted) (df : DateFields)
    (h1 : b.checkin = none) (h2 : b.checkout = none) (h3 : b.nights = none) :
    (applyDateFields b df).checkin = df.checkin ∧
    (applyDateFields b df).checkout = df.checkout ∧
    (applyDateFields b df).nights = df.nights := by
  unfold applyDateFields
  refine ⟨?_, ?_, ?_⟩
  · cases df.checkin with
    | some d => rfl
    | none => simpa using h1
  · cases df.checkout with
    | some d => rfl
    | none => simpa using h2
  · cases df.nights with
    | some d => rfl
    | none => simpa using h3

/-- C1 as amended: whenever the extraction yields both dates, the nights
key is `max(1, signed day difference between checkin and checkout)` or the
pair came from a `for N nights` phrase (nights = N, checkout = checkin + N
days); and `checkout >= checkin` is guaranteed whenever the date search did
not find exactly one date — i.e. on the two-date path and the range
fallback, but not on the single-date path with a trailing
`to/until/through/dash` phrase, which never reorders. -/
theorem extraction_dates_amended (o : NlpOracle) (now : DateTime) (text : String)
    (ci co : DateTime) (h1 : (extract_entities o now text).checkin = some ci)
    (h2 : (extract_entities o now text).checkout = some co) :
    ((extract_entities o now text).nights = some (nightsOf ci co) ∨
      ∃ n, (extract_entities o now text).nights = some n ∧
        co = addDays ci (Int.ofNat n)) ∧
    ((normalizedDates o now text).length ≠ 1 → dtLe ci co = true) := by
  unfold extract_entities at h1 h2 ⊢
  cases hemp : text.isEmpty with
  | true =>
    rw [hemp] at h1
    simp at h1
  | false =>
    rw [hemp] at h1 h2
    dsimp only at h1 h2 ⊢
    cases hguard : looks_like_name_response text && !hasNameWord (lowerL text.data) with
    | true =>
      rw [hguard] at h1
      simp at h1
    | false =>
      rw [hguard] at h1 h2
      dsimp only at h1 h2 ⊢
      obtain ⟨ha1, ha2, ha3⟩ := applyDateFields_none
        { name := nameExtract o text, guests := guestsExtract o text,
          breakfast := breakfastExtract text, payment_method := paymentExtract text }
        (searchPathFields o now text) rfl rfl rfl
      cases hsome : (applyDateFields
          { name := nameExtract o text, guests := guestsExtract o text,
            breakfast := breakfastExtract text, payment_method := paymentExtract text }
          (searchPathFields o now text)).checkin.isSome with
      | true =>
        rw [hsome] at h1 h2
        dsimp only at h1 h2 ⊢
        rw [ha1] at h1
        rw [ha2] at h2
        rw [ha3]
        rcases searchPathFields_spec o now text with
          ⟨hnil, hspf⟩ | ⟨ci', hone, hspf⟩ | ⟨ci', n, hone, hspf⟩ |
          ⟨ci', co', hspf, hord⟩
        · rw [hspf] at h1
          simp at h1
        · rw [hspf] at h2
          simp at h2
        · rw [hspf] at h1 h2 ⊢
          simp only [Option.some.injEq] at h1 h2
          subst h1
          refine ⟨Or.inr ⟨n, rfl, h2.symm⟩, ?_⟩
          intro hlen
          rw [hone] at hlen
          simp at hlen
        · rw [hspf] at h1 h2 ⊢
          simp only [Option.some.injEq] at h1 h2
          subst h1
          subst h2
          refine ⟨Or.inl rfl, ?_⟩
          intro hlen
          by_cases h2le : 2 ≤ (normalizedDates o now text).length
          · exact hord h2le
          · exfalso
            have h0 : (normalizedDates o now text).length = 0 := by omega
            have hnil : normalizedDates o now text = [] :=
              List.length_eq_zero.mp h0
            have hempty := searchPathFields_nil o now text hnil
            rw [hempty] at hspf
            simp at hspf
      | false =>
        rw [hsome] at h1 h2
        dsimp only at h1 h2 ⊢
        have hnone : (searchPathFields o now text).checkin = none := by
          rw [← ha1]
          exact Option.not_isSome_iff_eq_none.mp (by simp [hsome])
        have hspf0 : searchPathFields o now text = {} := by
          rcases searchPathFields_spec o now text with
            ⟨_, hspf⟩ | ⟨ci', _, hspf⟩ | ⟨ci', n, _, hspf⟩ | ⟨ci', co', hspf, _⟩
          · exact hspf
          · rw [hspf] at hnone; simp at hnone
          · rw [hspf] at hnone; simp at hnone
          · rw [hspf] at hnone; simp at hnone
        obtain ⟨hb1, hb2, hb3⟩ := applyDateFields_none _
          (rangeFields o now text) (by rw [ha1, hspf0])
          (by rw [ha2, hspf0]) (by rw [ha3, hspf0])
        rw [hb1] at h1
        rw [hb2] at h2
        rw [hb3]
        rcases rangeFields_spec o now text with hr | ⟨a, b, hr, hab⟩
        · rw [hr] at h1
          simp at h1
        · rw [hr] at h1 h2 ⊢
          simp only [Option.some.injEq] at h1 h2
          subst h1
          subst h2
          exact ⟨Or.inl rfl, fun _ => hab⟩

/- ### Claim C4 — intent classifier precedence -/

/-- C4, counterexample: the claim matches the whole confirm vocabulary with
word boundaries, but the source matches the three phrases as plain
substrings: on "xthat works" the code returns `confirm` while the claim's
classifier returns `unknown`. -/
theorem detect_intent_claim_counterexample :
    detect_intent "xthat works" = "confirm" ∧
    classify_claim "xthat works" = "unknown" := by
  constructor
  · rfl
  · rfl

/-- C4 as amended: the classifier is exactly the ordered precedence — empty
or whitespace-only → unknown; confirm (six word-bounded words, three plain
substring phrases), then cancel, then book, then greet vocabularies; then
the digit heuristic; else unknown — and `Yes!` / `OK` classify as confirm. -/
theorem detect_intent_precedence_amended :
    (∀ text : String, detect_intent text = classify_amended text) ∧
    detect_intent "Yes!" = "confirm" ∧ detect_intent "OK" = "confirm" := by
  refine ⟨?_, rfl, rfl⟩
  intro text
  by_cases he : text.isEmpty = true
  · have ht : text = "" := (String.isEmpty_iff text).mp he
    subst ht
    rfl
  · unfold detect_intent classify_amended _match_any_word firstTag
    simp only [he, Bool.false_or, if_false]
    by_cases hs : (stripS text).isEmpty = true
    · simp [hs]
    · by_cases h1 : CONFIRM_WORDS.any (fun p => p (lowerL text.data)) = true
      · simp [firstTag, hs, h1]
      · by_cases h2 : CANCEL_WORDS.any (fun p => p (lowerL text.data)) = true
        · simp [firstTag, hs, h1, h2]
        · by_cases h3 : BOOK_WORDS.any (fun p => p (lowerL text.data)) = true
          · simp [firstTag, hs, h1, h2, h3]
          · by_cases h4 : GREET_WORDS.any (fun p => p (lowerL text.data)) = true
            · simp [firstTag, hs, h1, h2, h3, h4]
            · simp [firstTag, hs, h1, h2, h3, h4]

/- ### Claim C6 — the date normalizer -/

/-- C6: with an explicit `20xx` year in the matched text the parsed date is
returned unchanged; otherwise the result is one of the valid candidates
under the current year minus one, the current year and the current year
plus one, minimizing the absolute time distance to the current moment. -/
theorem closest_year_spec (today dt : DateTime) (matched : String) :
    (hasExplicitYear matched = true →
      _closest_year_for_month_day today dt matched = dt) ∧
    (hasExplicitYear matched = false → candidatesFor today dt ≠ [] →
      _closest_year_for_month_day today dt matched ∈ candidatesFor today dt ∧
      ∀ c ∈ candidatesFor today dt,
        distSecs today (_closest_year_for_month_day today dt matched) ≤
          distSecs today c) := by
  constructor
  · intro h
    rw [_closest_year_for_month_day, if_pos h]
  · intro h hne
    rw [_closest_year_for_month_day, if_neg (by simp [h])]
    cases hc : candidatesFor today dt with
    | nil => exact absurd hc hne
    | cons c cs =>
      dsimp only
      constructor
      · rcases pyMinBy_mem (distSecs today) c cs with h' | h'
        · rw [h']
          exact List.mem_cons_self c cs
        · exact List.mem_cons_of_mem c h'
      · intro x hx
        rcases List.mem_cons.mp hx with rfl | hx'
        · exact (pyMinBy_min (distSecs today) x cs).1
        · exact (pyMinBy_min (distSecs today) c cs).2 x hx'

/-- C6, witness: "June 13 2024" keeps its explicit year; "June 13" near
2026-06-12 is normalized to one of the three candidate years. -/
theorem closest_year_spec_witness :
    _closest_year_for_month_day now26 (mkDT 2024 6 13) "June 13 2024" =
      mkDT 2024 6 13 ∧
    _closest_year_for_month_day now26 (mkDT 2024 6 13) "June 13" ∈
      candidatesFor now26 (mkDT 2024 6 13) :=
  ⟨(closest_year_spec now26 (mkDT 2024 6 13) "June 13 2024").1 (by decide),
   ((closest_year_spec now26 (mkDT 2024 6 13) "June 13").2 (by decide)
     (by decide)).1⟩

/- ### Claim C9 — breakfast and payment normalization -/

/-- C9: the fixed canonical mappings — "no breakfast please" normalizes to
`No`, "continental breakfast" to `Continental`, and "pay by btc" to
`Crypto` via the btc entry of the payment mapping — for every NLP oracle. -/
theorem breakfast_payment_normalization :
    ∀ (o : NlpOracle) (now : DateTime),
      (extract_entities o now "no breakfast please").breakfast = some "No" ∧
      (extract_entities o now "continental breakfast").breakfast =
        some "Continental" ∧
      (extract_entities o now "pay by btc").payment_method = some "Crypto" := by
  intro o now
  refine ⟨?_, ?_, ?_⟩
  · rw [extract_breakfast_proj]
    rfl
  · rw [extract_breakfast_proj]
    rfl
  · rw [extract_payment_proj]
    rfl

/-- Merging the empty mapping changes nothing and records no fields. -/
theorem mergeBooking_empty (b : Booking) : mergeBooking b {} = (b, []) := rfl

/- ### Claim C2 — confirm blocks an incomplete draft -/

/-- C2: on a confirm-classified turn whose post-merge draft is missing a
required field, the draft stays unconfirmed, the completeness flag is
false, and the reply lists exactly the missing fields. -/
theorem confirm_blocks_incomplete (E : String → Extracted) (ts : String)
    (b : Booking) (msg : String) (hconf : b.confirmed = false)
    (hi : detect_intent (stripS msg) = "confirm")
    (hm : compute_missing (turnMergedBooking E b (stripS msg)) ≠ []) :
    (handle_message E ts b msg).booking.confirmed = false ∧
    (handle_message E ts b msg).all_required_present = false ∧
    (handle_message E ts b msg).reply =
      "I need a few more details before I can confirm: " ++
        String.intercalate ", "
          (compute_missing (turnMergedBooking E b (stripS msg))) ++
        ". Could you provide them?" := by
  unfold turnMergedBooking at hm ⊢
  unfold handle_message
  dsimp only
  rw [hi]
  have hne : (compute_missing
      (mergeBooking (turnPre E b (stripS msg)).1 (turnPre E b (stripS msg)).2).1).isEmpty
      = false := by
    cases hmm : compute_missing
        (mergeBooking (turnPre E b (stripS msg)).1 (turnPre E b (stripS msg)).2).1 with
    | nil => exact absurd hmm hm
    | cons a l => rfl
  simp only [beq_self_eq_true, if_true, hne, Bool.not_false]
  refine ⟨?_, ?_, ?_⟩
  · rw [mergeBooking_confirmed, (turnPre_preserved E b (stripS msg)).2.1, hconf]
  · trivial
  · trivial

/-- C2, witness: saying "confirm" to an empty draft leaves it unconfirmed
and incomplete. -/
theorem confirm_blocks_incomplete_witness :
    (handle_message extNone "TS" bEmptyB "confirm").booking.confirmed = false ∧
    (handle_message extNone "TS" bEmptyB "confirm").all_required_present = false :=
  ⟨(confirm_blocks_incomplete extNone "TS" bEmptyB "confirm" rfl (by decide)
      (by decide)).1,
   (confirm_blocks_incomplete extNone "TS" bEmptyB "confirm" rfl (by decide)
      (by decide)).2.1⟩

/- ### Claim C7 — cancel appends an audit note -/

/-- C7: on a cancel-classified turn the notes gain a timestamped
cancellation entry with the previous notes preserved as a prefix, the flag
is false regardless of completeness, and the draft stays unconfirmed with
its identity intact (it is not deleted). -/
theorem cancel_appends_note (E : String → Extracted) (ts : String)
    (b : Booking) (msg : String) (hconf : b.confirmed = false)
    (hi : detect_intent (stripS msg) = "cancel") :
    (handle_message E ts b msg).booking.notes =
      some ((b.notes.getD "") ++ ("\nCancelled by user at " ++ ts)) ∧
    (handle_message E ts b msg).booking.confirmed = false ∧
    (handle_message E ts b msg).booking.id = b.id ∧
    (handle_message E ts b msg).all_required_present = false := by
  unfold handle_message
  dsimp only
  rw [hi]
  simp only [show (("cancel" : String) == "confirm") = false from rfl,
    Bool.false_eq_true, if_false, beq_self_eq_true, if_true]
  obtain ⟨hn, hc, hid⟩ := turnPre_preserved E b (stripS msg)
  refine ⟨?_, ?_, ?_, ?_⟩
  · rw [mergeBooking_notes, hn]
  · rw [mergeBooking_confirmed, hc, hconf]
  · rw [mergeBooking_id, hid]
  · trivial

/-- C7, witness: "never mind" on a dated draft appends the cancellation
note after the (empty) previous notes and reports incompleteness. -/
theorem cancel_appends_note_witness :
    (handle_message extNone "TS" bDates "never mind").booking.notes =
      some ((bDates.notes.getD "") ++ ("\nCancelled by user at " ++ "TS")) ∧
    (handle_message extNone "TS" bDates "never mind").all_required_present = false :=
  ⟨(cancel_appends_note extNone "TS" bDates "never mind" rfl (by decide)).1,
   (cancel_appends_note extNone "TS" bDates "never mind" rfl (by decide)).2.2.2⟩

/-- The normal conversational flow returns the post-merge draft unchanged. -/
theorem normalFlow_booking (bM : Booking) (ch : List String) :
    (normalFlow bM ch).booking = bM := by
  unfold normalFlow
  dsimp only
  split
  · rfl
  · rfl

/- ### Claim C5 — the name guard -/

/-- C5: when the pre-merge draft is missing the guest name and the stripped
utterance is non-empty and name-shaped, the utterance is assigned directly
to `guest_name` and the entity extractor is never consulted: the turn's
outcome is identical for any two extractors. -/
theorem name_guard_direct (E₁ E₂ : String → Extracted) (ts : String)
    (b : Booking) (msg : String) (hname : truthyStr b.guest_name = false)
    (hne : (stripS msg).isEmpty = false)
    (hlooks : looks_like_name_response (stripS msg) = true) :
    (handle_message E₁ ts b msg).booking.guest_name = some (stripS msg) ∧
    handle_message E₁ ts b msg = handle_message E₂ ts b msg := by
  have hcont : (compute_missing b).contains "name" = true := by
    unfold compute_missing
    rw [hname]
    simp
  have hpre : ∀ E : String → Extracted,
      turnPre E b (stripS msg) = ({ b with guest_name := some (stripS msg) }, {}) := by
    intro E
    unfold turnPre
    rw [if_pos (by rw [hcont, hne, hlooks]; rfl)]
  constructor
  · unfold handle_message
    dsimp only
    rw [hpre E₁, mergeBooking_empty]
    split
    · split
      · rfl
      · rfl
    · split
      · rfl
      · rw [normalFlow_booking]
  · unfold handle_message
    dsimp only
    rw [hpre E₁, hpre E₂]

/-- C5, witness: "John Carter" on a draft missing only the name sets the
guest name directly, with the same outcome under two different extractors. -/
theorem name_guard_direct_witness :
    (handle_message extNone "TS" bNoName "John Carter").booking.guest_name =
      some (stripS "John Carter") ∧
    handle_message extNone "TS" bNoName "John Carter" =
      handle_message extName "TS" bNoName "John Carter" :=
  name_guard_direct extNone extName "TS" bNoName "John Carter" rfl (by decide)
    (by decide)

/- ### Claim C8 — direct confirm / fetch endpoints -/

/-- C8: an unknown id is a pure not-found on both endpoints (no mutation,
no implicit draft creation); a confirm on a draft missing name, checkin or
guests is rejected with the rows unchanged; otherwise confirm sets
`confirmed = true`. -/
theorem direct_ops_spec (db : List Booking) (bid : Nat) :
    (findById db bid = none →
      confirm_booking db bid = (db, ApiResult.notFound) ∧
      get_booking db bid = ApiResult.notFound) ∧
    (∀ b, findById db bid = some b →
      (truthyStr b.guest_name = false ∨ b.checkin = none ∨
        truthyNat b.guests = false) →
      confirm_booking db bid = (db, ApiResult.missingRequired b)) ∧
    (∀ b, findById db bid = some b → truthyStr b.guest_name = true →
      b.checkin.isSome = true → truthyNat b.guests = true →
      (confirm_booking db bid).2 = ApiResult.ok { b with confirmed := true }) := by
  refine ⟨?_, ?_, ?_⟩
  · intro h
    constructor
    · simp only [confirm_booking, h]
    · simp only [get_booking, h]
  · intro b hb hmiss
    simp only [confirm_booking, hb]
    rcases hmiss with h | h | h
    · simp [h]
    · simp [h]
    · simp [h]
  · intro b hb h1 h2 h3
    simp only [confirm_booking, hb]
    simp [h1, h2, h3]

/-- C8, witness: id 99 is not found on both endpoints; the empty draft is
rejected for missing fields with the rows unchanged; the complete draft
confirms. -/
theorem direct_ops_spec_witness :
    get_booking dbW 99 = ApiResult.notFound ∧
    confirm_booking dbW 2 = (dbW, ApiResult.missingRequired bEmptyB) ∧
    (confirm_booking dbW 4).2 = ApiResult.ok { bFull with confirmed := true } :=
  ⟨((direct_ops_spec dbW 99).1 (by decide)).2,
   (direct_ops_spec dbW 2).2.1 bEmptyB (by decide) (Or.inl (by decide)),
   (direct_ops_spec dbW 4).2.2 bFull (by decide) (by decide) (by decide)
     (by decide)⟩

/- ### Claim C10 — the breakfast `Unspecified` fallback -/

/-- Transport of a substring through a prefix at a suffix position. -/
theorem containsSubL_trans_pos {lt s w c : List Char} (hsuf : s <:+ lt)
    (hpre : w <+: s) (hcw : containsSubL c w = true) :
    containsSubL c lt = true := by
  rw [containsSubL_iff] at hcw ⊢
  exact (hcw.trans hpre.isInfix).trans hsuf.isInfix

/-- The merged breakfast column: overwritten by a truthy extracted value. -/
theorem mergeBooking_breakfast (b : Booking) (e : Extracted) :
    (mergeBooking b e).1.breakfast =
      (if truthyStr e.breakfast then e.breakfast else b.breakfast) := by
  unfold mergeBooking
  repeat' split
  all_goals rfl

/-- C10: an utterance carrying the standalone word `breakfast` but none of
the recognizable preference cues still extracts a breakfast value — the
capitalized fallback `Unspecified` — and, being truthy, it overwrites any
breakfast value already stored on the draft at merge time. -/
theorem breakfast_unspecified_fallback (text : String)
    (hw : wordSearch "breakfast".data (lowerL text.data) = true)
    (hcue : ∀ c ∈ ["yes", "no", "includ", "with", "continental", "american",
        "buffet", "full", "english"],
      containsSubL (String.data c) (lowerL text.data) = false) :
    breakfastExtract text = some "Unspecified" ∧
    ∀ (o : NlpOracle) (now : DateTime) (b : Booking),
      (mergeBooking b (extract_entities o now text)).1.breakfast =
        some "Unspecified" := by
  have h_a : bfstKeywordSearch (lowerL text.data) = none := by
    cases hk : bfstKeywordSearch (lowerL text.data) with
    | none => rfl
    | some g =>
      exfalso
      obtain ⟨s, hsuf, hinner⟩ := scanList_eq_some hk
      by_cases hbf : prefAt "breakfast".data s = true
      · rw [if_pos hbf] at hinner
        obtain ⟨hg_mem, hg_pre⟩ := firstPref_some hinner
        have hrest : (s.drop 9).dropWhile isSepChar <:+ lowerL text.data :=
          ((List.dropWhile_suffix _).trans (List.drop_suffix 9 s)).trans hsuf
        have hbr : ∀ w ∈ bfstBranches,
            ∃ c ∈ ["yes", "no", "includ", "with", "continental", "american",
              "buffet", "full", "english"],
              containsSubL (String.data c) w = true := by decide
        obtain ⟨c, hc_mem, hcw⟩ := hbr g hg_mem
        exact absurd (containsSubL_trans_pos hrest hg_pre hcw)
          (by rw [hcue c hc_mem]; simp)
      · rw [if_neg hbf] at hinner
        exact Option.noConfusion hinner
  have h_b : includeWithBfst (lowerL text.data) = false := by
    cases hk : includeWithBfst (lowerL text.data) with
    | false => rfl
    | true =>
      exfalso
      obtain ⟨s, hsuf, hf⟩ := boolScan_true hk
      unfold phraseThenBreakfast at hf
      rw [List.any_eq_true] at hf
      obtain ⟨w, hw_mem, hw_val⟩ := hf
      have hw_pre : w <+: s :=
        (prefAt_iff w s).mp ((Bool.and_eq_true _ _).mp hw_val).1
      have hcl : ∀ w ∈ [("include".data : List Char), "included".data,
          "with".data],
          ∃ c ∈ ["yes", "no", "includ", "with", "continental", "american",
            "buffet", "full", "english"],
            containsSubL (String.data c) w = true := by decide
      obtain ⟨c, hc_mem, hcw⟩ := hcl w hw_mem
      exact absurd (containsSubL_trans_pos hsuf hw_pre hcw)
        (by rw [hcue c hc_mem]; simp)
  have h_c : noWithoutBfst (lowerL text.data) = false := by
    cases hk : noWithoutBfst (lowerL text.data) with
    | false => rfl
    | true =>
      exfalso
      obtain ⟨s, hsuf, hf⟩ := boolScan_true hk
      unfold phraseThenBreakfast at hf
      rw [List.any_eq_true] at hf
      obtain ⟨w, hw_mem, hw_val⟩ := hf
      have hw_pre : w <+: s :=
        (prefAt_iff w s).mp ((Bool.and_eq_true _ _).mp hw_val).1
      have hcl : ∀ w ∈ [("no".data : List Char), "without".data, "none".data],
          ∃ c ∈ ["yes", "no", "includ", "with", "continental", "american",
            "buffet", "full", "english"],
            containsSubL (String.data c) w = true := by decide
      obtain ⟨c, hc_mem, hcw⟩ := hcl w hw_mem
      exact absurd (containsSubL_trans_pos hsuf hw_pre hcw)
        (by rw [hcue c hc_mem]; simp)
  have h_f : fullEnglishSearch (lowerL text.data) = false := by
    cases hk : fullEnglishSearch (lowerL text.data) with
    | false => rfl
    | true =>
      exfalso
      obtain ⟨s, hsuf, hf⟩ := boolScan_true hk
      have hfull : "full".data <+: s := by
        rcases (Bool.or_eq_true _ _).mp hf with hf1 | hf2
        · rcases (Bool.or_eq_true _ _).mp hf1 with hf11 | hf12
          · exact (prefAt_iff _ s).mp ((Bool.and_eq_true _ _).mp hf11).1
          · exact (show ("full".data : List Char) <+: "fullenglish".data by
              decide).trans ((prefAt_iff _ s).mp hf12)
        · exact (show ("full".data : List Char) <+: "full english".data by
            decide).trans ((prefAt_iff _ s).mp hf2)
      have : containsSubL "full".data (lowerL text.data) = true := by
        rw [containsSubL_iff]
        exact hfull.isInfix.trans hsuf.isInfix
      exact absurd this (by rw [hcue "full" (by simp)]; simp)
  have h_d : containsSubL "continental".data (lowerL text.data) = false :=
    hcue "continental" (by simp)
  have h_e : containsSubL "buffet".data (lowerL text.data) = false :=
    hcue "buffet" (by simp)
  have hmain : breakfastExtract text = some "Unspecified" := by
    unfold breakfastExtract
    rw [if_pos hw]
    rw [h_a]
    simp only [h_b, h_c, h_d, h_e, h_f, Bool.false_eq_true, if_false]
    rfl
  refine ⟨hmain, ?_⟩
  intro o now b
  rw [mergeBooking_breakfast, extract_breakfast_proj, hmain]
  rfl

/-- C10, witness: "breakfast please" extracts `Unspecified`, which
overwrites a stored `Buffet` on merge. -/
theorem breakfast_unspecified_fallback_witness :
    breakfastExtract "breakfast please" = some "Unspecified" ∧
    (mergeBooking { bDates with breakfast := some "Buffet" }
      (extract_entities emptyOracle now26 "breakfast please")).1.breakfast =
      some "Unspecified" :=
  ⟨(breakfast_unspecified_fallback "breakfast please" (by decide) (by decide)).1,
   (breakfast_unspecified_fallback "breakfast please" (by decide) (by decide)).2
     emptyOracle now26 { bDates with breakfast := some "Buffet" }⟩

/- ### Claims C1 and C3 — counterexamples and the merge invariant -/

/-- C1, counterexample: extraction does not enforce `checkout >= checkin`
on the trailing-phrase path ("June 13 until June 10" yields checkin
June 13 and checkout June 10), and on the `for 0 nights` path the night
count is 0, not `max(1, days) = 1`. -/
theorem extraction_order_counterexample :
    ((extract_entities oTrail now26 "June 13 until June 10").checkin =
        some (mkDT 2026 6 13) ∧
      (extract_entities oTrail now26 "June 13 until June 10").checkout =
        some (mkDT 2026 6 10) ∧
      dtLe (mkDT 2026 6 13) (mkDT 2026 6 10) = false) ∧
    ((extract_entities oZeroN now26 "June 10 for 0 nights").checkin =
        some (mkDT 2026 6 10) ∧
      (extract_entities oZeroN now26 "June 10 for 0 nights").checkout =
        some (mkDT 2026 6 10) ∧
      (extract_entities oZeroN now26 "June 10 for 0 nights").nights = some 0 ∧
      nightsOf (mkDT 2026 6 10) (mkDT 2026 6 10) = 1) := by
  refine ⟨⟨?_, ?_, ?_⟩, ?_, ?_, ?_, ?_⟩ <;> decide

/-- C1 amended, witness: "June 10 to June 13" found as two dates yields an
ordered pair with the `max(1, day difference)` night count. -/
theorem extraction_dates_amended_witness :
    ((extract_entities oTwo now26 "June 10 to June 13").nights =
        some (nightsOf (mkDT 2026 6 10) (mkDT 2026 6 13)) ∨
      ∃ n, (extract_entities oTwo now26 "June 10 to June 13").nights = some n ∧
        mkDT 2026 6 13 = addDays (mkDT 2026 6 10) (Int.ofNat n)) ∧
    ((normalizedDates oTwo now26 "June 10 to June 13").length ≠ 1 →
      dtLe (mkDT 2026 6 10) (mkDT 2026 6 13) = true) :=
  extraction_dates_amended oTwo now26 "June 10 to June 13"
    (mkDT 2026 6 10) (mkDT 2026 6 13) (by decide) (by decide)

/-- The invariant depends only on the three date columns. -/
theorem bookingInvariant_fields (b1 b2 : Booking) (h1 : b1.checkin = b2.checkin)
    (h2 : b1.checkout = b2.checkout) (h3 : b1.nights = b2.nights) :
    bookingInvariant b1 = bookingInvariant b2 := by
  unfold bookingInvariant
  rw [h1, h2, h3]

/-- The name guard leaves the three date columns untouched. -/
theorem turnPre_dates (E : String → Extracted) (b : Booking) (text : String) :
    (turnPre E b text).1.checkin = b.checkin ∧
    (turnPre E b text).1.checkout = b.checkout ∧
    (turnPre E b text).1.nights = b.nights := by
  unfold turnPre
  split
  · exact ⟨rfl, rfl, rfl⟩
  · exact ⟨rfl, rfl, rfl⟩

/-- The merged checkin column. -/
theorem mergeBooking_checkin (b : Booking) (e : Extracted) :
    (mergeBooking b e).1.checkin =
      (if e.checkin.isSome then e.checkin else b.checkin) := by
  unfold mergeBooking
  repeat' split
  all_goals rfl

/-- The merged checkout column. -/
theorem mergeBooking_checkout (b : Booking) (e : Extracted) :
    (mergeBooking b e).1.checkout =
      (if e.checkout.isSome then e.checkout else b.checkout) := by
  unfold mergeBooking
  repeat' split
  all_goals rfl

/-- The merged nights column. -/
theorem mergeBooking_nights (b : Booking) (e : Extracted) :
    (mergeBooking b e).1.nights =
      (if truthyNat e.nights then e.nights else b.nights) := by
  unfold mergeBooking
  repeat' split
  all_goals rfl

/-- A night count from `nightsOf` is never zero. -/
theorem nightsOf_pos (a b : DateTime) : nightsOf a b ≠ 0 := by
  unfold nightsOf
  have h1 : (1 : Int) ≤ max 1 (dayDiff a b) := le_max_left 1 (dayDiff a b)
  omega

/-- Merging an extraction whose date keys are consistent (or absent)
preserves the draft invariant. -/
theorem mergeBooking_invariant (bP : Booking) (e : Extracted)
    (hb : bookingInvariant bP = true) (he : extractedDatesOk e = true) :
    bookingInvariant (mergeBooking bP e).1 = true := by
  have hci := mergeBooking_checkin bP e
  have hco := mergeBooking_checkout bP e
  have hni := mergeBooking_nights bP e
  unfold extractedDatesOk at he
  split at he
  · rename_i ci co hec heo
    rw [hec] at hci
    rw [heo] at hco
    simp only [Option.isSome_some, if_true] at hci hco
    rw [Bool.and_eq_true] at he
    obtain ⟨hord, hn⟩ := he
    rw [beq_iff_eq] at hn
    unfold bookingInvariant
    rw [hci, hco]
    dsimp only
    rw [hni, hn]
    rw [if_pos (show truthyNat (some (nightsOf ci co)) = true by
      unfold truthyNat
      simp [nightsOf_pos ci co])]
    simp [hord]
  · rename_i hec heo
    rw [Bool.not_eq_true'] at he
    rw [hec] at hci
    rw [heo] at hco
    simp only [Option.isSome_none, Bool.false_eq_true, if_false] at hci hco
    rw [he] at hni
    simp only [Bool.false_eq_true, if_false] at hni
    rw [bookingInvariant_fields (mergeBooking bP e).1 bP hci hco hni]
    exact hb
  · exact absurd he (by simp)

/-- The booking a turn returns has the post-merge date columns. -/
theorem handle_message_dates (E : String → Extracted) (ts : String)
    (b : Booking) (msg : String) :
    (handle_message E ts b msg).booking.checkin =
      (turnMergedBooking E b (stripS msg)).checkin ∧
    (handle_message E ts b msg).booking.checkout =
      (turnMergedBooking E b (stripS msg)).checkout ∧
    (handle_message E ts b msg).booking.nights =
      (turnMergedBooking E b (stripS msg)).nights := by
  unfold handle_message turnMergedBooking
  dsimp only
  split
  · split
    · exact ⟨rfl, rfl, rfl⟩
    · exact ⟨rfl, rfl, rfl⟩
  · split
    · exact ⟨rfl, rfl, rfl⟩
    · rw [normalFlow_booking]
      exact ⟨rfl, rfl, rfl⟩

/-- C3, counterexample: the draft `bDates` satisfies the invariant, yet a
turn whose extraction yields only a later checkin ("June 20") merges it
field-by-field and leaves `checkout < checkin` on the stored draft. -/
theorem booking_invariant_counterexample :
    bookingInvariant bDates = true ∧
    bookingInvariant ((handle_message (extract_entities oSingle now26) "TS"
      bDates "June 20").booking) = false := by
  constructor
  · decide
  · decide

/-- C3 as amended: the invariant is preserved by every turn whose
extraction either sets checkin and checkout together with
`checkout >= checkin` and `nights = max(1, days between)`, or sets no date
key effectively; a one-sided extraction (checkin alone) can break it. -/
theorem booking_invariant_amended (E : String → Extracted) (ts : String)
    (b : Booking) (msg : String) (hb : bookingInvariant b = true)
    (hE : extractedDatesOk (turnPre E b (stripS msg)).2 = true) :
    bookingInvariant ((handle_message E ts b msg).booking) = true := by
  obtain ⟨hd1, hd2, hd3⟩ := handle_message_dates E ts b msg
  rw [bookingInvariant_fields _ _ hd1 hd2 hd3]
  unfold turnMergedBooking
  obtain ⟨hp1, hp2, hp3⟩ := turnPre_dates E b (stripS msg)
  have hbP : bookingInvariant (turnPre E b (stripS msg)).1 = true := by
    rw [bookingInvariant_fields _ _ hp1 hp2 hp3]
    exact hb
  exact mergeBooking_invariant _ _ hbP hE

/-- C3 amended, witness: a turn with an empty extraction preserves the
invariant of the dated draft. -/
theorem booking_invariant_amended_witness :
    bookingInvariant ((handle_message extNone "TS" bDates "hello").booking) = true :=
  booking_invariant_amended extNone "TS" bDates "hello" (by decide) (by decide)
